import Mathlib

/-!
Shallow embedding of the PARC data pipeline (`parc/IO.py`) and of the
recurrent integrator inside the model (`parc/model.py`), together with
theorems settling the specification's claims about them.

Conventions used throughout:
* machine floats become exact rationals `ℚ`;
* numpy arrays become functions from `ℕ` indices to `ℚ`, written once per
  loop iteration through an explicit functional-update combinator, so the
  in-place mutation order of the Python loops is reproduced exactly;
* operations that can raise a Python exception return `Except`;
* all spatial pixels are treated pointwise: every array statement in the
  embedded code acts identically and independently on each pixel, so a
  single pixel's value history is a faithful model of the whole image.
-/

namespace Parc

/-! ## Functional array updates -/

/-- Update a one-dimensional `ℚ`-array at index `i`. -/
def wr (a : ℕ → ℚ) (i : ℕ) (v : ℚ) : ℕ → ℚ :=
  fun j => if j = i then v else a j

/-- Update a two-dimensional `ℚ`-array (time index, channel index). -/
def wr2 (a : ℕ → ℕ → ℚ) (t c : ℕ) (v : ℚ) : ℕ → ℕ → ℚ :=
  fun u d => if u = t ∧ d = c then v else a u d

/-! ## wave_map  (IO.py lines 183-197)

`wave_map` allocates `np.zeros((width, height))` and then runs
`for w in range(1, width): wave_map[:, w] = w / width`.
The second axis of the array has size `height`, so the column write
`wave_map[:, w]` is a Python `IndexError` whenever `w >= height`;
we model that failure as `Except.error ()`. -/

/-- The column-filling loop of `wave_map`, having executed the iterations
`w = 1 .. m` in increasing order. -/
def waveLoop (width height : ℕ) : ℕ → Except Unit (ℕ → ℕ → ℚ)
  | 0 => Except.ok fun _ _ => 0
  | m + 1 =>
    match waveLoop width height m with
    | Except.error e => Except.error e
    | Except.ok arr =>
        if m + 1 < height then
          Except.ok fun r c => if c = m + 1 then ((m + 1 : ℕ) : ℚ) / width else arr r c
        else Except.error ()

/-- `wave_map(width, height)`: the loop runs over `range(1, width)`,
i.e. the iterations `w = 1 .. width - 1`. -/
def wave_map (width height : ℕ) : Except Unit (ℕ → ℕ → ℚ) :=
  waveLoop width height (width - 1)

/-! ## split_data  (IO.py lines 199-242) -/

/-- Python `int()` applied to a real number truncates toward zero. -/
def pyInt (q : ℚ) : ℤ :=
  if q < 0 then ⌈q⌉ else ⌊q⌋

/-- Python sequence slice `xs[a:b]`, modelled for the non-negative,
clamped-to-length boundaries produced by `split_data`. -/
def pySlice {α : Type} (xs : List α) (a b : ℤ) : List α :=
  (xs.drop a.toNat).take (b.toNat - a.toNat)

/-- The boundary computation of `split_data` (IO.py lines 212-219):
`train = n*splits[0]`, `valid = train + n*splits[1]`,
`test = valid + n*splits[2]`, each then truncated by `int()`. -/
def splitBounds (n : ℕ) (s0 s1 s2 : ℚ) : ℤ × ℤ × ℤ :=
  let train : ℚ := (n : ℚ) * s0
  let valid : ℚ := train + (n : ℚ) * s1
  let test : ℚ := valid + (n : ℚ) * s2
  (pyInt train, pyInt valid, pyInt test)

/-- `split_data(data_in, output_data, splits)` (IO.py lines 199-242): the case
count is `len(output_data)`; the six returned tensors are the slices
`[:train]`, `[train:valid]`, `[valid:test]` of the two inputs, in the order
X_train, y_train, X_val, y_val, test_X, test_Y. -/
def split_data {α β : Type} (data_in : List α) (output_data : List β)
    (s0 s1 s2 : ℚ) : List α × List β × List α × List β × List α × List β :=
  let n := output_data.length
  let b := splitBounds n s0 s1 s2
  (pySlice data_in 0 b.1, pySlice output_data 0 b.1,
   pySlice data_in b.1 b.2.1, pySlice output_data b.1 b.2.1,
   pySlice data_in b.2.1 b.2.2, pySlice output_data b.2.1 b.2.2)

/-! ## Per-channel normalization  (IO.py lines 139-148)

For each field channel the code computes the global max and min of the
channel over all cases, pixels and timesteps, rescales by
`(x - min) / (max - min)` and then applies `x * 2 - 1`.  We model the
collection of all values of one channel as a list of rationals. -/

/-- `np.amax` over the (non-empty) collection of values of one channel. -/
def listMax : List ℚ → ℚ
  | [] => 0
  | x :: xs => xs.foldl max x

/-- `np.amin` over the (non-empty) collection of values of one channel. -/
def listMin : List ℚ → ℚ
  | [] => 0
  | x :: xs => xs.foldl min x

/-- The two successive array assignments of the normalization loop body
(IO.py lines 140-147) applied to one channel. -/
def normalizeChannel (xs : List ℚ) : List ℚ :=
  let M := listMax xs
  let m := listMin xs
  (xs.map fun x => (x - m) / (M - m)).map fun y => y * 2 - 1

/-- The normalization loop body wrapped in `Except`: the source contains no
test of the denominator and no raise statement of any kind, so every input,
degenerate or not, takes the unique (non-error) path. -/
def normalizeChannelE (xs : List ℚ) : Except Unit (List ℚ) :=
  Except.ok (normalizeChannel xs)

/-! ## The field/rate portion of parse_data  (IO.py lines 60-106)

Per case and per pixel, `output_data` is a two-dimensional array indexed by
0-based timestep and channel (0 temperature, 1 pressure, 2 temperature rate,
3 pressure rate), initialized by `np.zeros`.  `rawT t` / `rawP t` are the
values loaded from `Temp_t.txt` / `pres_t.txt` (1-based `t`).  The initial
values are the constants written at lines 61-64: temperature 300,
pressure 0. -/

/-- `np.clip(x, lo, hi)`. -/
def clipQ (x lo hi : ℚ) : ℚ := min (max x lo) hi

/-- One iteration of the timestep loop of `parse_data`
(IO.py lines 67-106), for Python loop variable `time_idx`, transforming the
per-case `output_data` array.  Every read and write uses exactly the index
expression of the source; in particular `previousT`/`previousP` in the
`else` branch read `output_data[..., time_idx - 1, 0/1]` — the slot that was
written earlier in the same iteration. -/
def parse_data_step (del_t : ℚ) (rawT rawP : ℕ → ℚ) (time_idx : ℕ)
    (arr : ℕ → ℕ → ℚ) : ℕ → ℕ → ℚ :=
  let temp := clipQ (rawT time_idx) 300 4000
  let a1 := wr2 arr (time_idx - 1) 0 temp
  let pressure := rawP time_idx
  let a2 := wr2 a1 (time_idx - 1) 1 pressure
  let currentT := a2 (time_idx - 1) 0
  let currentP := a2 (time_idx - 1) 1
  let previousT := if time_idx = 1 then 300 else a2 (time_idx - 1) 0
  let previousP := if time_idx = 1 then 0 else a2 (time_idx - 1) 1
  let a3 := wr2 a2 (time_idx - 1) 2 ((currentT - previousT) / del_t)
  wr2 a3 (time_idx - 1) 3 ((currentP - previousP) / del_t)

/-- The timestep loop of `parse_data` after the iterations
`time_idx = 1 .. m`, executed in increasing order, starting from the
all-zero array. -/
def parse_data_loop (del_t : ℚ) (rawT rawP : ℕ → ℚ) : ℕ → (ℕ → ℕ → ℚ)
  | 0 => fun _ _ => 0
  | m + 1 => parse_data_step del_t rawT rawP (m + 1) (parse_data_loop del_t rawT rawP m)

/-! ## The microstructure portion of parse_data  (IO.py lines 48-58)

`raw case p col` is the pixel `p`, color channel `col` of the image file of
(1-based) case `case`, as loaded by `cv2.imread`; line 54 keeps color
channel 1.  The assignments at lines 57-58 are
`microstructure_data[:, :, :, 0] = img` and
`microstructure_data[:, :, :, 1] = wave_map`: the first axis is the full
slice `:`, so each iteration writes the channels of every case. -/

/-- The case loop of `parse_data`, restricted to its microstructure
assignments, after the iterations `case_idx = 1 .. m` in increasing order.
The result maps (0-based case, pixel, channel) to the stored value. -/
def microLoop (raw : ℕ → ℕ → ℕ → ℚ) (wave : ℕ → ℚ) : ℕ → (ℕ → ℕ → ℕ → ℚ)
  | 0 => fun _ _ _ => 0
  | m + 1 => fun c p ch =>
      if ch = 0 then raw (m + 1) p 1
      else if ch = 1 then wave p
      else microLoop raw wave m c p ch

/-! ## The spatial crop  (IO.py lines 166-167)

`output_data[:, :480, :480, :, :]` and `microstructure_data[:, :480, :480, :]`
are plain numpy basic slices: the kept extent along each sliced axis is
`min(size, 480)`, and a slice never raises, whatever the input size. -/

/-- A tensor with its two spatial extents and its (pixel-indexed) contents;
the case/time/channel axes are untouched by the crop and are elided. -/
structure Grid where
  w : ℕ
  h : ℕ
  data : ℕ → ℕ → ℚ

/-- The numpy slice `a[:480, :480]` on the spatial axes. -/
def cropTo480 (a : Grid) : Grid :=
  { w := min a.w 480, h := min a.h 480, data := a.data }

/-- The crop stage of `parse_data` (IO.py lines 166-167) applied to the
field tensor and the microstructure tensor, wrapped in `Except`: the source
performs two slice expressions and nothing else, so no input reaches an
error. -/
def crop_step (fields micro : Grid) : Except Unit (Grid × Grid) :=
  Except.ok (cropTo480 fields, cropTo480 micro)

/-! ## reshape_old / reshape_new  (IO.py lines 245-319)

Per case and per pixel: the 5-D `new_data` is a function of (0-based
timestep, channel), and the 4-D `old_data` a function of the flattened
channel index.  `reshape_old` allocates
`np.zeros((cases, s, s, time_steps * 4))` and fills it with two loops over
`time_idx in range(1, time_steps + 1)`. -/

/-- The last-axis allocation size of `old_data` in `reshape_old`
(IO.py line 255): `time_steps * 4`. -/
def oldWidth (T : ℕ) : ℕ := T * 4

/-- First loop of `reshape_old` (IO.py lines 259-265) after iterations
`time_idx = 1 .. m`: writes the temperature of timestep `time_idx - 1` at
flattened index `2 * time_idx - 2` and the pressure at `2 * time_idx - 1`. -/
def oldLoopA (new : ℕ → ℕ → ℚ) : ℕ → (ℕ → ℚ) → (ℕ → ℚ)
  | 0, old => old
  | m + 1, old =>
      wr (wr (oldLoopA new m old) (2 * (m + 1) - 2) (new m 0))
        (2 * (m + 1) - 1) (new m 1)

/-- Second loop of `reshape_old` (IO.py lines 266-272) after iterations
`time_idx = 1 .. m`: writes the temperature rate of timestep `time_idx - 1`
at flattened index `2 * (time_steps - 1) + 2 * time_idx` and the pressure
rate right after it. -/
def oldLoopB (T : ℕ) (new : ℕ → ℕ → ℚ) : ℕ → (ℕ → ℚ) → (ℕ → ℚ)
  | 0, old => old
  | m + 1, old =>
      wr (wr (oldLoopB T new m old) (2 * (T - 1) + 2 * (m + 1)) (new m 2))
        (2 * (T - 1) + 2 * (m + 1) + 1) (new m 3)

/-- `reshape_old` (IO.py lines 245-276) per case and pixel: both loops run
for `time_idx = 1 .. T` over the zero-initialized array. -/
def reshape_old (T : ℕ) (new : ℕ → ℕ → ℚ) : ℕ → ℚ :=
  oldLoopB T new T (oldLoopA new T fun _ => 0)

/-- `reshape_new` (IO.py lines 279-319) per case and pixel:
`time_steps = old.shape[3] / channels` (integer division via `int()`), the
output is zero-initialized, and for `channels = 4` the four loops copy
`old[2t]`, `old[2t+1]`, `old[2T + 2t]`, `old[2T + 2t + 1]` into channels
0-3 of timestep `t`; for `channels = 2` only the first two; every target is
written at most once, so the loop is equivalent to this direct map. -/
def reshape_new (width : ℕ) (old : ℕ → ℚ) (channels : ℕ) : ℕ → ℕ → ℚ :=
  fun t ch =>
    let T := width / channels
    if channels = 4 then
      if t < T ∧ ch = 0 then old (2 * t)
      else if t < T ∧ ch = 1 then old (2 * t + 1)
      else if t < T ∧ ch = 2 then old (2 * T + 2 * t)
      else if t < T ∧ ch = 3 then old (2 * T + 2 * t + 1)
      else 0
    else if channels = 2 then
      if t < T ∧ ch = 0 then old (2 * t)
      else if t < T ∧ ch = 1 then old (2 * t + 1)
      else 0
    else 0

/-! ## The recurrent integrator  (model.py lines 168-231)

The loop `for i in range(19)` computes
`current_Tdot = derivative_solver(current_T, feature_map)`,
`current_T_int = integral_solver(current_Tdot)`,
`next_T = add([current_T, current_T_int])`, appends `next_T` and
`current_Tdot` to the two output lists and sets `current_T = next_T`.
`derivative_solver` and `integral_solver` (model.py lines 23-31) apply the
module-level layers `temp1` and `temp2`, so the same two transforms are
shared by every iteration; we abstract them as functions `d` (taking the
current state and the feature map) and `g` over a state type with
addition. -/

/-- The integrator loop with `n` iterations left, current state `curT`:
returns the pair of the collected states and the collected rate
estimates, in step order. -/
def parcSteps {σ : Type} [Add σ] (d : σ → σ → σ) (g : σ → σ) (fm : σ) :
    ℕ → σ → List σ × List σ
  | 0, _ => ([], [])
  | n + 1, curT =>
      let tdot := d curT fm
      let tint := g tdot
      let nextT := curT + tint
      let rest := parcSteps d g fm n nextT
      (nextT :: rest.1, tdot :: rest.2)

/-- The recurrent section of `parc` (model.py lines 174-181):
`for i in range(19)` starting from the input `T0`. -/
def parcRecurrent {σ : Type} [Add σ] (d : σ → σ → σ) (g : σ → σ)
    (fm T0 : σ) : List σ × List σ :=
  parcSteps d g fm 19 T0

/-- The per-step state transition of the integrator loop:
`next_T = current_T + integral_solver(derivative_solver(current_T, fm))`. -/
def parcStep {σ : Type} [Add σ] (d : σ → σ → σ) (g : σ → σ) (fm : σ)
    (curT : σ) : σ :=
  curT + g (d curT fm)

/-! ## Concrete inputs used by counterexamples and evaluations -/

/-- Temperature file contents: 310 at timestep 1, 320 at every later one. -/
def rawT1 : ℕ → ℚ := fun t => if t = 1 then 310 else 320

/-- Pressure file contents: identically zero. -/
def rawP0 : ℕ → ℚ := fun _ => 0

/-- A 5-D field tensor slice (per case and pixel) whose entries are all
distinct: timestep `t`, channel `ch` holds `4 * t + ch + 1`. -/
def newEx : ℕ → ℕ → ℚ := fun t ch => ((4 * t + ch + 1 : ℕ) : ℚ)

/-- Two microstructure image files with different contents: every pixel and
color channel of case 1's image is 10, of case 2's image is 20. -/
def raw2 : ℕ → ℕ → ℕ → ℚ := fun c _ _ => if c = 1 then 10 else 20

/-- A 100 × 100 all-zero tensor, smaller than the 480 crop constant. -/
def gEx : Grid := { w := 100, h := 100, data := fun _ _ => 0 }

end Parc

namespace Parc

/-! ## Theorems -/

/-- The column-filling loop of `wave_map`, run for `m` iterations with all
column indices `1 .. m` in bounds, succeeds and fills exactly those
columns. -/
lemma waveLoop_eval (width height : ℕ) :
    ∀ m, m < height →
      waveLoop width height m =
        Except.ok fun _ c => if 1 ≤ c ∧ c ≤ m then (c : ℚ) / width else 0 := by
  intro m
  induction m with
  | zero =>
      intro _
      rw [waveLoop]
      congr 1
      funext r c
      rw [if_neg]
      omega
  | succ m ih =>
      intro h
      rw [waveLoop, ih (by omega)]
      dsimp only
      rw [if_pos h]
      congr 1
      funext r c
      by_cases hc : c = m + 1
      · rw [if_pos hc, if_pos (by omega)]
        rw [hc]
      · rw [if_neg hc]
        by_cases hc2 : 1 ≤ c ∧ c ≤ m
        · rw [if_pos hc2, if_pos (by omega)]
        · rw [if_neg hc2, if_neg (by omega)]

/-- Claim C10 (amended): when the loop stays in bounds, i.e. `width ≤ height`,
`wave_map(width, height)` returns the map whose column 0 is zero and whose
column `w` is `w / width` for `1 ≤ w < width`.  (For `width > height ≥ 1`
the column write `wave_map[:, w]` goes out of bounds, see the
counterexample.) -/
theorem wave_map_spec (width height : ℕ) (h1 : 1 ≤ width) (h2 : width ≤ height) :
    wave_map width height =
      Except.ok fun _ c => if 1 ≤ c ∧ c < width then (c : ℚ) / width else 0 := by
  rw [wave_map, waveLoop_eval width height (width - 1) (by omega)]
  congr 1
  funext r c
  by_cases hc : 1 ≤ c ∧ c ≤ width - 1
  · rw [if_pos hc, if_pos (by omega)]
  · rw [if_neg hc, if_neg (by omega)]

/-- Witness for claim C10: the amended statement at `width = height = 3`. -/
theorem wave_map_spec_witness :
    wave_map 3 3 =
      Except.ok fun (_ c : ℕ) => if 1 ≤ c ∧ c < 3 then (c : ℚ) / 3 else 0 := by
  have h := wave_map_spec 3 3 (by norm_num) (by norm_num)
  simpa using h

/-- Counterexample for claim C10 as stated: at `width = 2, height = 1`
(both at least 1) the write `wave_map[:, 1]` exceeds the second axis of the
`(2, 1)` array, so `wave_map` raises instead of returning a map. -/
theorem wave_map_oob_cex : wave_map 2 1 = Except.error () := rfl

/-- Claim C7 (amended): the crop stage is the pair of numpy slices
`[:, :480, :480, ...]`: each spatial extent becomes `min(size, 480)`, the
retained values are unchanged, and no input — in particular none smaller
than 480×480 — raises an error. -/
theorem crop_spec (fields micro : Grid) :
    crop_step fields micro = Except.ok (cropTo480 fields, cropTo480 micro) ∧
    (cropTo480 fields).w = min fields.w 480 ∧
    (cropTo480 fields).h = min fields.h 480 ∧
    (cropTo480 micro).w = min micro.w 480 ∧
    (cropTo480 micro).h = min micro.h 480 ∧
    (∀ i j, (cropTo480 fields).data i j = fields.data i j) ∧
    (∀ i j, (cropTo480 micro).data i j = micro.data i j) :=
  ⟨rfl, rfl, rfl, rfl, rfl, fun _ _ => rfl, fun _ _ => rfl⟩

/-- Counterexample for claim C7 as stated: on 100×100 inputs, smaller than
480×480, the crop stage does not raise; it returns both tensors at their
own 100×100 size. -/
theorem crop_no_raise_cex :
    (crop_step gEx gEx).map (fun p => (p.1.w, p.1.h, p.2.w, p.2.h)) =
      Except.ok (100, 100, 100, 100) := rfl

/-- Claim C6 (amended): on a degenerate channel (global max equal to global
min) the normalization step raises nothing: the only path in IO.py lines
139-148 is the division itself, which here divides by the zero range (IEEE
arithmetic yields NaN; in the exact model the 0-division convention turns
every value into `0 * 2 - 1 = -1`). -/
theorem normalize_degenerate_spec (xs : List ℚ) (h : listMax xs = listMin xs) :
    normalizeChannelE xs = Except.ok (xs.map fun _ => (-1 : ℚ)) := by
  unfold normalizeChannelE normalizeChannel
  rw [List.map_map]
  congr 1
  have hfun : ((fun y : ℚ => y * 2 - 1) ∘ fun x => (x - listMin xs) / (listMax xs - listMin xs))
      = fun _ : ℚ => (-1 : ℚ) := by
    funext x
    simp [h, sub_self, div_zero]
  rw [hfun]

/-- Witness for claim C6: the amended statement at the constant channel
`[7, 7, 7]`. -/
theorem normalize_degenerate_spec_witness :
    normalizeChannelE [7, 7, 7] = Except.ok [-1, -1, -1] := by
  have h := normalize_degenerate_spec [7, 7, 7] (by norm_num [listMax, listMin])
  simpa using h

/-- Counterexample for claim C6 as stated: on the degenerate channel
`[5, 5]` the normalization step returns a value — it does not raise any
error. -/
theorem normalize_no_raise_cex :
    normalizeChannelE [5, 5] = Except.ok [-1, -1] := by
  norm_num [normalizeChannelE, normalizeChannel, listMax, listMin]

/-- Claim C4: evaluation of the microstructure assignments at two cases
whose image files differ (case 1's pixels are 10, case 2's are 20).
Because line 57 writes `microstructure_data[:, :, :, 0] = img` with a full
slice over the case axis, after the loop BOTH cases hold case 2's image
value 20; case 0's stored entry is not built from its own image. -/
theorem micro_aliasing_bug :
    microLoop raw2 (fun _ => 0) 2 0 0 0 = 20 ∧
    microLoop raw2 (fun _ => 0) 2 1 0 0 = 20 ∧
    raw2 1 0 1 = 10 ∧
    raw2 2 0 1 = 20 := by
  norm_num [microLoop, raw2]

/-- Claim C1: evaluation of the field/rate loop at `time_steps = 2`,
`del_t = 5`, temperature 310 at timestep 1 and 320 at timestep 2, pressure
zero.  The stored temperatures are 310 and 320 and the stored rate at
timestep 1 is `(310 - 300) / 5 = 2` as the claim says; but at timestep 2
the stored rate is 0, because the `else` branch of IO.py lines 95-100 reads
`previousT` from `output_data[..., time_idx - 1, 0]` — the slot written
with the CURRENT temperature earlier in the same iteration — while the
claimed value is `(320 - 310) / 5 = 2`. -/
theorem parse_data_rate_bug :
    parse_data_loop 5 rawT1 rawP0 2 0 0 = 310 ∧
    parse_data_loop 5 rawT1 rawP0 2 1 0 = 320 ∧
    parse_data_loop 5 rawT1 rawP0 2 0 2 = 2 ∧
    parse_data_loop 5 rawT1 rawP0 2 1 2 = 0 ∧
    (320 - 310 : ℚ) / 5 = 2 := by
  norm_num [parse_data_loop, parse_data_step, wr2, clipQ, rawT1, rawP0]

/-- A fold of a binary operation commutes with a map along a function that
distributes over the operation. -/
lemma foldl_op_map (op : ℚ → ℚ → ℚ) (f : ℚ → ℚ)
    (hf : ∀ a b, f (op a b) = op (f a) (f b)) :
    ∀ (xs : List ℚ) (x : ℚ), (xs.map f).foldl op (f x) = f (xs.foldl op x) := by
  intro xs
  induction xs with
  | nil => intro x; rfl
  | cons y ys ih =>
      intro x
      simp only [List.map_cons, List.foldl_cons, ← hf]
      exact ih (op x y)

/-- `listMax` commutes with mapping a max-distributing function over a
non-empty list. -/
lemma listMax_map (f : ℚ → ℚ) (hf : ∀ a b, f (max a b) = max (f a) (f b))
    (x : ℚ) (ys : List ℚ) : listMax ((x :: ys).map f) = f (listMax (x :: ys)) := by
  simp only [List.map_cons, listMax]
  exact foldl_op_map max f hf ys x

/-- `listMin` commutes with mapping a min-distributing function over a
non-empty list. -/
lemma listMin_map (f : ℚ → ℚ) (hf : ∀ a b, f (min a b) = min (f a) (f b))
    (x : ℚ) (ys : List ℚ) : listMin ((x :: ys).map f) = f (listMin (x :: ys)) := by
  simp only [List.map_cons, listMin]
  exact foldl_op_map min f hf ys x

/-- Claim C5: on a non-degenerate field channel (global min strictly below
global max), the normalization step of parse_data applies the per-channel
affine map `x ↦ 2 * (x - min) / (max - min) - 1`, and the resulting channel
has global minimum −1 and global maximum 1 exactly. -/
theorem normalize_channel_spec (xs : List ℚ) (h : listMin xs < listMax xs) :
    normalizeChannel xs =
      xs.map (fun x => 2 * (x - listMin xs) / (listMax xs - listMin xs) - 1) ∧
    listMin (normalizeChannel xs) = -1 ∧
    listMax (normalizeChannel xs) = 1 := by
  obtain ⟨x, ys, rfl⟩ : ∃ x ys, xs = x :: ys := by
    cases xs with
    | nil => exfalso; exact absurd h (by simp [listMin, listMax])
    | cons a l => exact ⟨a, l, rfl⟩
  set m := listMin (x :: ys) with hm
  set M := listMax (x :: ys) with hM
  have hpos : 0 < M - m := sub_pos.mpr h
  have hne : M - m ≠ 0 := ne_of_gt hpos
  have hmap : normalizeChannel (x :: ys) =
      (x :: ys).map (fun v => (v - m) / (M - m) * 2 - 1) := by
    simp only [normalizeChannel, List.map_map]
    rw [← hm, ← hM]
    rfl
  have hmono : ∀ a b : ℚ, a ≤ b →
      (a - m) / (M - m) * 2 - 1 ≤ (b - m) / (M - m) * 2 - 1 := by
    intro a b hab
    have h1 : (a - m) / (M - m) ≤ (b - m) / (M - m) :=
      (div_le_div_iff_of_pos_right hpos).mpr (sub_le_sub_right hab m)
    linarith
  have hfmax : ∀ a b : ℚ,
      (max a b - m) / (M - m) * 2 - 1 =
        max ((a - m) / (M - m) * 2 - 1) ((b - m) / (M - m) * 2 - 1) := by
    intro a b
    rcases le_total a b with hab | hab
    · rw [max_eq_right hab, max_eq_right (hmono a b hab)]
    · rw [max_eq_left hab, max_eq_left (hmono b a hab)]
  have hfmin : ∀ a b : ℚ,
      (min a b - m) / (M - m) * 2 - 1 =
        min ((a - m) / (M - m) * 2 - 1) ((b - m) / (M - m) * 2 - 1) := by
    intro a b
    rcases le_total a b with hab | hab
    · rw [min_eq_left hab, min_eq_left (hmono a b hab)]
    · rw [min_eq_right hab, min_eq_right (hmono b a hab)]
  refine ⟨?_, ?_, ?_⟩
  · have hfun : (fun v : ℚ => (v - m) / (M - m) * 2 - 1) =
        fun v : ℚ => 2 * (v - m) / (M - m) - 1 := by
      funext v; ring
    rw [hmap, hfun]
  · rw [hmap, listMin_map (fun v => (v - m) / (M - m) * 2 - 1) hfmin x ys, ← hm,
      sub_self, zero_div]
    norm_num
  · rw [hmap, listMax_map (fun v => (v - m) / (M - m) * 2 - 1) hfmax x ys, ← hM,
      div_self hne]
    norm_num

/-- Witness for claim C5: the channel `[0, 1, 3]`, whose min 0 and max 3
differ; it normalizes to `[-1, -1/3, 1]`. -/
theorem normalize_channel_spec_witness :
    normalizeChannel [0, 1, 3] =
      [0, 1, 3].map
        (fun x => 2 * (x - listMin [0, 1, 3]) / (listMax [0, 1, 3] - listMin [0, 1, 3]) - 1) ∧
    listMin (normalizeChannel [0, 1, 3]) = -1 ∧
    listMax (normalizeChannel [0, 1, 3]) = 1 :=
  normalize_channel_spec [0, 1, 3] (by norm_num [listMin, listMax, min_def, max_def])

/-- Three successive slices with increasing boundaries reassemble into the
prefix up to the last boundary. -/
lemma take_chain {α : Type} (X : List α) (a b c : ℕ) (hab : a ≤ b) (hbc : b ≤ c) :
    X.take a ++ (X.drop a).take (b - a) ++ (X.drop b).take (c - b) = X.take c := by
  have h1 : X.take b = X.take a ++ (X.drop a).take (b - a) := by
    have : a + (b - a) = b := by omega
    rw [← this, List.take_add]
    simp [Nat.add_sub_cancel_left]
  have h2 : X.take c = X.take b ++ (X.drop b).take (c - b) := by
    have : b + (c - b) = c := by omega
    rw [← this, List.take_add]
    simp [Nat.add_sub_cancel_left]
  rw [h2, h1, List.append_assoc]

/-- Claim C8: the boundaries of `split_data` are
`train = int(n*p0)`, `valid = int(n*p0 + n*p1)`,
`test = int(n*p0 + n*p1 + n*p2)`; for non-negative proportions the three
slices of each input are contiguous and non-overlapping — concatenated in
order they give back exactly the prefix of the input up to `test`; and for
proportions `[0.7, 0.15, 0.15]` with 20 cases the boundaries are 14, 17, 20,
so train gets cases `[0, 14)`, validation `[14, 17)` and test `[17, 20)`. -/
theorem split_data_spec :
    (∀ (n : ℕ) (s0 s1 s2 : ℚ),
        splitBounds n s0 s1 s2 =
          (pyInt ((n : ℚ) * s0), pyInt ((n : ℚ) * s0 + (n : ℚ) * s1),
           pyInt ((n : ℚ) * s0 + (n : ℚ) * s1 + (n : ℚ) * s2))) ∧
    (∀ (α β : Type) (X : List α) (Y : List β) (s0 s1 s2 : ℚ),
        0 ≤ s0 → 0 ≤ s1 → 0 ≤ s2 →
        (split_data X Y s0 s1 s2).1 ++ (split_data X Y s0 s1 s2).2.2.1 ++
            (split_data X Y s0 s1 s2).2.2.2.2.1 =
          X.take (splitBounds Y.length s0 s1 s2).2.2.toNat ∧
        (split_data X Y s0 s1 s2).2.1 ++ (split_data X Y s0 s1 s2).2.2.2.1 ++
            (split_data X Y s0 s1 s2).2.2.2.2.2 =
          Y.take (splitBounds Y.length s0 s1 s2).2.2.toNat) ∧
    splitBounds 20 (7/10) (3/20) (3/20) = (14, 17, 20) ∧
    (split_data (List.range 20) (List.range 20) (7/10) (3/20) (3/20)).1 =
      List.range 14 ∧
    (split_data (List.range 20) (List.range 20) (7/10) (3/20) (3/20)).2.2.1 =
      [14, 15, 16] ∧
    (split_data (List.range 20) (List.range 20) (7/10) (3/20) (3/20)).2.2.2.2.1 =
      [17, 18, 19] := by
  have h20 : splitBounds 20 (7/10) (3/20) (3/20) = (14, 17, 20) := by
    norm_num [splitBounds, pyInt]
  have hmain : ∀ (α : Type) (X : List α) (n : ℕ) (s0 s1 s2 : ℚ),
      0 ≤ s0 → 0 ≤ s1 → 0 ≤ s2 →
      pySlice X 0 (splitBounds n s0 s1 s2).1 ++
          pySlice X (splitBounds n s0 s1 s2).1 (splitBounds n s0 s1 s2).2.1 ++
          pySlice X (splitBounds n s0 s1 s2).2.1 (splitBounds n s0 s1 s2).2.2 =
        X.take (splitBounds n s0 s1 s2).2.2.toNat := by
    intro α X n s0 s1 s2 h0 h1 h2
    have ha : (0 : ℚ) ≤ (n : ℚ) * s0 := mul_nonneg (Nat.cast_nonneg n) h0
    have hb : (0 : ℚ) ≤ (n : ℚ) * s1 := mul_nonneg (Nat.cast_nonneg n) h1
    have hc : (0 : ℚ) ≤ (n : ℚ) * s2 := mul_nonneg (Nat.cast_nonneg n) h2
    have e1 : (splitBounds n s0 s1 s2).1 = ⌊(n : ℚ) * s0⌋ := by
      simp [splitBounds, pyInt, not_lt.mpr ha]
    have e2 : (splitBounds n s0 s1 s2).2.1 = ⌊(n : ℚ) * s0 + (n : ℚ) * s1⌋ := by
      simp [splitBounds, pyInt, not_lt.mpr (add_nonneg ha hb)]
    have e3 : (splitBounds n s0 s1 s2).2.2 =
        ⌊(n : ℚ) * s0 + (n : ℚ) * s1 + (n : ℚ) * s2⌋ := by
      simp [splitBounds, pyInt, not_lt.mpr (add_nonneg (add_nonneg ha hb) hc)]
    have h12 : (splitBounds n s0 s1 s2).1 ≤ (splitBounds n s0 s1 s2).2.1 := by
      rw [e1, e2]; exact Int.floor_le_floor (le_add_of_nonneg_right hb)
    have h23 : (splitBounds n s0 s1 s2).2.1 ≤ (splitBounds n s0 s1 s2).2.2 := by
      rw [e2, e3]; exact Int.floor_le_floor (le_add_of_nonneg_right hc)
    have ht12 : (splitBounds n s0 s1 s2).1.toNat ≤ (splitBounds n s0 s1 s2).2.1.toNat :=
      Int.toNat_le_toNat h12
    have ht23 : (splitBounds n s0 s1 s2).2.1.toNat ≤ (splitBounds n s0 s1 s2).2.2.toNat :=
      Int.toNat_le_toNat h23
    have hz : ((0 : ℤ)).toNat = 0 := rfl
    simp only [pySlice, hz, List.drop_zero, Nat.sub_zero]
    exact take_chain X _ _ _ ht12 ht23
  refine ⟨fun n s0 s1 s2 => rfl, ?_, h20, ?_, ?_, ?_⟩
  · intro α β X Y s0 s1 s2 h0 h1 h2
    constructor
    · simpa only [split_data] using hmain α X Y.length s0 s1 s2 h0 h1 h2
    · simpa only [split_data] using hmain β Y Y.length s0 s1 s2 h0 h1 h2
  · simp only [split_data, List.length_range, h20]
    decide
  · simp only [split_data, List.length_range, h20]
    decide
  · simp only [split_data, List.length_range, h20]
    decide

/-- Witness for claim C8: the non-negativity hypotheses discharged at the
concrete proportions `[1/2, 1/4, 1/4]` with 5 cases. -/
theorem split_data_spec_witness :
    (split_data (List.range 5) (List.range 5) (1/2 : ℚ) (1/4) (1/4)).1 ++
        (split_data (List.range 5) (List.range 5) (1/2 : ℚ) (1/4) (1/4)).2.2.1 ++
        (split_data (List.range 5) (List.range 5) (1/2 : ℚ) (1/4) (1/4)).2.2.2.2.1 =
      (List.range 5).take (splitBounds (List.range 5).length (1/2 : ℚ) (1/4) (1/4)).2.2.toNat ∧
    (split_data (List.range 5) (List.range 5) (1/2 : ℚ) (1/4) (1/4)).2.1 ++
        (split_data (List.range 5) (List.range 5) (1/2 : ℚ) (1/4) (1/4)).2.2.2.1 ++
        (split_data (List.range 5) (List.range 5) (1/2 : ℚ) (1/4) (1/4)).2.2.2.2.2 =
      (List.range 5).take (splitBounds (List.range 5).length (1/2 : ℚ) (1/4) (1/4)).2.2.toNat :=
  split_data_spec.2.1 ℕ ℕ (List.range 5) (List.range 5) (1/2) (1/4) (1/4)
    (by norm_num) (by norm_num) (by norm_num)

/-- After `m` iterations, the first loop of `reshape_old` has filled indices
`[0, 2m)` with the interleaved (temperature, pressure) pairs of timesteps
`0 .. m-1` and left everything else untouched. -/
lemma oldLoopA_eval (new : ℕ → ℕ → ℚ) :
    ∀ (m : ℕ) (old : ℕ → ℚ) (k : ℕ),
      oldLoopA new m old k = if k < 2 * m then new (k / 2) (k % 2) else old k := by
  intro m
  induction m with
  | zero => intro old k; simp [oldLoopA]
  | succ m ih =>
      intro old k
      simp only [oldLoopA, wr]
      rw [ih]
      by_cases h1 : k = 2 * (m + 1) - 1
      · rw [if_pos h1, if_pos (by omega)]
        have hd : k / 2 = m := by omega
        have hm : k % 2 = 1 := by omega
        rw [hd, hm]
      · rw [if_neg h1]
        by_cases h2 : k = 2 * (m + 1) - 2
        · rw [if_pos h2, if_pos (by omega)]
          have hd : k / 2 = m := by omega
          have hm : k % 2 = 0 := by omega
          rw [hd, hm]
        · rw [if_neg h2]
          by_cases h3 : k < 2 * m
          · rw [if_pos h3, if_pos (by omega)]
          · rw [if_neg h3, if_neg (by omega)]

/-- After `m` iterations, the second loop of `reshape_old` has filled indices
`[2T, 2T + 2m)` with the interleaved (temperature rate, pressure rate) pairs
of timesteps `0 .. m-1` and left everything else untouched. -/
lemma oldLoopB_eval (T : ℕ) (hT : 1 ≤ T) (new : ℕ → ℕ → ℚ) :
    ∀ (m : ℕ) (old : ℕ → ℚ) (k : ℕ),
      oldLoopB T new m old k =
        if 2 * T ≤ k ∧ k < 2 * T + 2 * m then
          new ((k - 2 * T) / 2) (2 + (k - 2 * T) % 2)
        else old k := by
  intro m
  induction m with
  | zero =>
      intro old k
      simp only [oldLoopB]
      rw [if_neg (by omega)]
  | succ m ih =>
      intro old k
      simp only [oldLoopB, wr]
      rw [ih]
      by_cases h1 : k = 2 * (T - 1) + 2 * (m + 1) + 1
      · rw [if_pos h1, if_pos (by omega)]
        have hd : (k - 2 * T) / 2 = m := by omega
        have hm : 2 + (k - 2 * T) % 2 = 3 := by omega
        rw [hd, hm]
      · rw [if_neg h1]
        by_cases h2 : k = 2 * (T - 1) + 2 * (m + 1)
        · rw [if_pos h2, if_pos (by omega)]
          have hd : (k - 2 * T) / 2 = m := by omega
          have hm : 2 + (k - 2 * T) % 2 = 2 := by omega
          rw [hd, hm]
        · rw [if_neg h2]
          by_cases h3 : 2 * T ≤ k ∧ k < 2 * T + 2 * m
          · rw [if_pos h3, if_pos (by omega)]
          · rw [if_neg h3, if_neg (by omega)]

/-- Closed form of `reshape_old` per case and pixel: fields in `[0, 2T)`,
rates in `[2T, 4T)`, zeros beyond. -/
lemma reshape_old_eval (T : ℕ) (hT : 1 ≤ T) (new : ℕ → ℕ → ℚ) (k : ℕ) :
    reshape_old T new k =
      if k < 2 * T then new (k / 2) (k % 2)
      else if k < 4 * T then new ((k - 2 * T) / 2) (2 + (k - 2 * T) % 2)
      else 0 := by
  unfold reshape_old
  rw [oldLoopB_eval T hT new T, oldLoopA_eval]
  by_cases h1 : 2 * T ≤ k ∧ k < 2 * T + 2 * T
  · rw [if_pos h1, if_neg (by omega), if_pos (by omega)]
  · rw [if_neg h1]
    by_cases h2 : k < 2 * T
    · rw [if_pos h2, if_pos h2]
    · rw [if_neg h2, if_neg h2, if_neg (by omega)]

/-- Claim C3 (amended): for a tensor with `T ≥ 1` timesteps, the flattened
output of `reshape_old` has channel width `4T` (the allocation
`time_steps * 4`); indices `[0, 2T)` hold the interleaved
(temperature, pressure) pairs in timestep order, and indices `[2T, 4T)`
hold the interleaved (temperature rate, pressure rate) pairs of ALL
timesteps `0 .. T-1` — the rate at timestep 0 is stored, not omitted. -/
theorem reshape_old_layout (T : ℕ) (hT : 1 ≤ T) (new : ℕ → ℕ → ℚ) :
    oldWidth T = 4 * T ∧
    (∀ t, t < T →
      reshape_old T new (2 * t) = new t 0 ∧
      reshape_old T new (2 * t + 1) = new t 1 ∧
      reshape_old T new (2 * T + 2 * t) = new t 2 ∧
      reshape_old T new (2 * T + 2 * t + 1) = new t 3) ∧
    (∀ k, 4 * T ≤ k → reshape_old T new k = 0) := by
  refine ⟨by unfold oldWidth; omega, ?_, ?_⟩
  · intro t ht
    refine ⟨?_, ?_, ?_, ?_⟩
    · rw [reshape_old_eval T hT new, if_pos (by omega)]
      have hd : 2 * t / 2 = t := by omega
      have hm : 2 * t % 2 = 0 := by omega
      rw [hd, hm]
    · rw [reshape_old_eval T hT new, if_pos (by omega)]
      have hd : (2 * t + 1) / 2 = t := by omega
      have hm : (2 * t + 1) % 2 = 1 := by omega
      rw [hd, hm]
    · rw [reshape_old_eval T hT new, if_neg (by omega), if_pos (by omega)]
      have hd : (2 * T + 2 * t - 2 * T) / 2 = t := by omega
      have hm : 2 + (2 * T + 2 * t - 2 * T) % 2 = 2 := by omega
      rw [hd, hm]
    · rw [reshape_old_eval T hT new, if_neg (by omega), if_pos (by omega)]
      have hd : (2 * T + 2 * t + 1 - 2 * T) / 2 = t := by omega
      have hm : 2 + (2 * T + 2 * t + 1 - 2 * T) % 2 = 3 := by omega
      rw [hd, hm]
  · intro k hk
    rw [reshape_old_eval T hT new, if_neg (by omega), if_neg (by omega)]

/-- Witness for claim C3: the amended layout at `T = 2` on the
all-distinct tensor `newEx`. -/
theorem reshape_old_layout_witness :
    oldWidth 2 = 4 * 2 ∧
    (∀ t, t < 2 →
      reshape_old 2 newEx (2 * t) = newEx t 0 ∧
      reshape_old 2 newEx (2 * t + 1) = newEx t 1 ∧
      reshape_old 2 newEx (2 * 2 + 2 * t) = newEx t 2 ∧
      reshape_old 2 newEx (2 * 2 + 2 * t + 1) = newEx t 3) ∧
    (∀ k, 4 * 2 ≤ k → reshape_old 2 newEx k = 0) :=
  reshape_old_layout 2 (by norm_num) newEx

/-- Counterexample for claim C3 as stated: at `T = 2` timesteps the claim
asserts channel width `4T − 2 = 6` and that index `2T = 4` holds the rate
pair of timestep 1.  On the all-distinct input `newEx` the allocated width
`oldWidth 2` is 8, and index 4 holds `newEx 0 2 = 3` — the rate of
timestep 0 (the rate of timestep 1 would be `newEx 1 2 = 7`), so no rate is
omitted and the width is `4T`. -/
theorem reshape_old_layout_cex :
    oldWidth 2 = 8 ∧
    (4 * 2 - 2 : ℕ) = 6 ∧
    reshape_old 2 newEx 4 = 3 ∧
    newEx 0 2 = 3 ∧
    newEx 1 2 = 7 ∧
    reshape_old 2 newEx 6 = 7 ∧
    reshape_old 2 newEx 7 = 8 := by
  norm_num [reshape_old, oldLoopA, oldLoopB, oldWidth, wr, newEx]

/-- Claim C2: converting a 5-D field tensor with `T ≥ 2` timesteps to the
flattened layout and back with `channels = 4` is the identity: the
recovered timestep count is `T` and every entry of every valid timestep and
channel is recovered exactly. -/
theorem reshape_round_trip (T : ℕ) (hT : 2 ≤ T) (X : ℕ → ℕ → ℚ) :
    oldWidth T / 4 = T ∧
    ∀ t, t < T → ∀ ch, ch < 4 →
      reshape_new (oldWidth T) (reshape_old T X) 4 t ch = X t ch := by
  have hw : oldWidth T / 4 = T := by unfold oldWidth; omega
  refine ⟨hw, ?_⟩
  intro t ht ch hch
  have h1 : (1 : ℕ) ≤ T := by omega
  have hok : ∀ k, reshape_old T X k =
      if k < 2 * T then X (k / 2) (k % 2)
      else if k < 4 * T then X ((k - 2 * T) / 2) (2 + (k - 2 * T) % 2)
      else 0 := reshape_old_eval T h1 X
  unfold reshape_new
  rw [hw]
  dsimp only
  interval_cases ch
  · rw [if_pos rfl, if_pos (show t < T ∧ (0:ℕ) = 0 from ⟨ht, rfl⟩), hok,
      if_pos (by omega)]
    have hd : 2 * t / 2 = t := by omega
    have hm : 2 * t % 2 = 0 := by omega
    rw [hd, hm]
  · rw [if_pos rfl, if_neg (by simp), if_pos (show t < T ∧ (1:ℕ) = 1 from ⟨ht, rfl⟩),
      hok, if_pos (by omega)]
    have hd : (2 * t + 1) / 2 = t := by omega
    have hm : (2 * t + 1) % 2 = 1 := by omega
    rw [hd, hm]
  · rw [if_pos rfl, if_neg (by simp), if_neg (by simp),
      if_pos (show t < T ∧ (2:ℕ) = 2 from ⟨ht, rfl⟩), hok,
      if_neg (by omega), if_pos (by omega)]
    have hd : (2 * T + 2 * t - 2 * T) / 2 = t := by omega
    have hm : 2 + (2 * T + 2 * t - 2 * T) % 2 = 2 := by omega
    rw [hd, hm]
  · rw [if_pos rfl, if_neg (by simp), if_neg (by simp), if_neg (by simp),
      if_pos (show t < T ∧ (3:ℕ) = 3 from ⟨ht, rfl⟩), hok,
      if_neg (by omega), if_pos (by omega)]
    have hd : (2 * T + 2 * t + 1 - 2 * T) / 2 = t := by omega
    have hm : 2 + (2 * T + 2 * t + 1 - 2 * T) % 2 = 3 := by omega
    rw [hd, hm]

/-- Witness for claim C2: the round trip at `T = 2` on the all-distinct
tensor `newEx`. -/
theorem reshape_round_trip_witness :
    oldWidth 2 / 4 = 2 ∧
    ∀ t, t < 2 → ∀ ch, ch < 4 →
      reshape_new (oldWidth 2) (reshape_old 2 newEx) 4 t ch = newEx t ch :=
  reshape_round_trip 2 (by norm_num) newEx

/-- Closed form of the integrator loop: the `i`-th collected state is the
`(i+1)`-fold iterate of the per-step transition from the initial state, and
the `i`-th collected rate is the derivative transform of the `i`-fold
iterate. -/
lemma parcSteps_eval {σ : Type} [Add σ] (d : σ → σ → σ) (g : σ → σ) (fm : σ) :
    ∀ (n : ℕ) (T : σ),
      parcSteps d g fm n T =
        ((List.range n).map fun i => (parcStep d g fm)^[i + 1] T,
         (List.range n).map fun i => d ((parcStep d g fm)^[i] T) fm) := by
  intro n
  induction n with
  | zero => intro T; simp [parcSteps]
  | succ n ih =>
      intro T
      have hs : parcSteps d g fm (n + 1) T =
          (parcStep d g fm T :: (parcSteps d g fm n (parcStep d g fm T)).1,
           d T fm :: (parcSteps d g fm n (parcStep d g fm T)).2) := rfl
      rw [hs, ih]
      simp [List.range_succ_eq_map, List.map_map, Function.comp_def,
        Function.iterate_succ_apply]

/-- The integrator loop on zero state and zero feature map, with transforms
preserving zero, never leaves zero. -/
lemma parcSteps_zero {σ : Type} [AddZeroClass σ] (d : σ → σ → σ) (g : σ → σ)
    (hd : d 0 0 = 0) (hg : g 0 = 0) :
    ∀ n, parcSteps d g (0 : σ) n 0 = (List.replicate n 0, List.replicate n 0) := by
  intro n
  induction n with
  | zero => rfl
  | succ n ih =>
      have hs : parcSteps d g (0 : σ) (n + 1) 0 =
          (((0 : σ) + g (d 0 0)) :: (parcSteps d g (0 : σ) n ((0 : σ) + g (d 0 0))).1,
           d 0 0 :: (parcSteps d g (0 : σ) n ((0 : σ) + g (d 0 0))).2) := rfl
      rw [hs, hd, hg, add_zero, ih, List.replicate_succ]

/-- Element lookup in a mapped range list. -/
lemma map_range_getD {σ : Type} (f : ℕ → σ) (z : σ) (n i : ℕ) (h : i < n) :
    ((List.range n).map f).getD i z = f i := by
  have hlen : i < ((List.range n).map f).length := by simpa
  rw [List.getD_eq_getElem _ _ hlen]
  simp

/-- Claim C9: the recurrent integrator collects exactly 19 states and 19
rate estimates; the `i`-th state is the `(i+1)`-fold iterate of the single
shared step `T ↦ T + integral_solver(derivative_solver(T, fm))`, so each
state is the previous one plus the integrated rate of the same shared
transforms; and from a zero initial field and zero feature map, with both
transforms mapping zero to zero, all 19 states and all 19 rates are zero. -/
theorem parc_recurrent_spec {σ : Type} [AddZeroClass σ] (d : σ → σ → σ) (g : σ → σ)
    (fm T0 : σ) :
    (parcRecurrent d g fm T0).1.length = 19 ∧
    (parcRecurrent d g fm T0).2.length = 19 ∧
    (∀ i, i < 19 →
      (parcRecurrent d g fm T0).1.getD i 0 = (parcStep d g fm)^[i + 1] T0 ∧
      (parcRecurrent d g fm T0).2.getD i 0 = d ((parcStep d g fm)^[i] T0) fm) ∧
    (∀ i, i + 1 < 19 →
      (parcRecurrent d g fm T0).1.getD (i + 1) 0 =
        parcStep d g fm ((parcRecurrent d g fm T0).1.getD i 0)) ∧
    (d 0 0 = 0 → g 0 = 0 →
      parcRecurrent d g 0 0 = (List.replicate 19 0, List.replicate 19 0)) := by
  have he := parcSteps_eval d g fm 19 T0
  refine ⟨?_, ?_, ?_, ?_, ?_⟩
  · unfold parcRecurrent
    rw [he]
    simp
  · unfold parcRecurrent
    rw [he]
    simp
  · intro i hi
    unfold parcRecurrent
    rw [he]
    dsimp only
    constructor
    · exact map_range_getD _ 0 19 i hi
    · exact map_range_getD _ 0 19 i hi
  · intro i hi
    unfold parcRecurrent
    rw [he]
    dsimp only
    rw [map_range_getD _ 0 19 (i + 1) hi, map_range_getD _ 0 19 i (by omega)]
    rw [Function.iterate_succ_apply']
  · intro hd hg
    unfold parcRecurrent
    exact parcSteps_zero d g hd hg 19

/-- Witness for claim C9: over the integers, with the derivative transform
`(a, b) ↦ a + b` and the identity integration transform — both preserving
zero — the 19 collected states and rates from zero input are all zero. -/
theorem parc_recurrent_spec_witness :
    parcRecurrent (fun a b : ℤ => a + b) (fun a => a) 0 0 =
      (List.replicate 19 0, List.replicate 19 0) :=
  (parc_recurrent_spec (fun a b : ℤ => a + b) (fun a => a) 0 0).2.2.2.2
    (by simp) (by simp)

end Parc
